import Mathlib

/-!
Shallow embedding of `src/timeline.js` (thecynicslantern/timeline) and proofs
about its seek engine.

JS handler functions are opaque side-effecting values; the embedding identifies
each handler by a numeric id and records every invocation in an observable
trace carried in the engine state.  Times and numeric values are rationals
(JS number arithmetic is exact on every input considered here).  The wall-clock
driver (`play`, `pause`, `timescale`) and the promise helper `Timeline.tween`
are not modelled; every claim below concerns the synchronous seek engine, the
stores, and the deferred purge.  Line numbers in doc comments refer to
`src/timeline.js`.
-/

namespace Timeline

/-- The `undo` argument of `timeline.at`: `null`, `true` (replay the forward
handler), or an undo callback identified by a numeric id. -/
inductive Undo where
  | null : Undo
  | self : Undo
  | fn : ℕ → Undo
deriving DecidableEq, Repr

/-- One element of an event bucket: the pair `[func, undo]` pushed by
`timeline.at` (line 261). `id` identifies the forward handler `func`. -/
structure Entry where
  id : ℕ
  undo : Undo
deriving DecidableEq, Repr

/-- An observable callback invocation: a forward handler call `pair[0]()`, an
undo callback call `pair[1]()`, or a tween `apply(value)` call. -/
inductive Action where
  | fwd : ℕ → Action
  | undoFn : ℕ → Action
  | tweenApply : ℕ → ℚ → Action
deriving DecidableEq, Repr

/-- `callFunc = pair => pair[0]()` (line 110). -/
def callFunc (e : Entry) : List Action := [Action.fwd e.id]

/-- `callUndo = pair => pair[1] && ((pair[1] === true) ? pair[0]() : pair[1]())`
(line 111). -/
def callUndo (e : Entry) : List Action :=
  match e.undo with
  | Undo.null => []
  | Undo.self => [Action.fwd e.id]
  | Undo.fn u => [Action.undoFn u]

/-- A tween bound (`from`/`to` argument): a number, or a zero-argument callable
resolved at apply time (modelled by the value it returns). -/
inductive TVal where
  | num : ℚ → TVal
  | thunk : ℚ → TVal
deriving DecidableEq, Repr

/-- `typeof v == "function" ? v() : v` (lines 165-166). -/
def TVal.resolve : TVal → ℚ
  | TVal.num q => q
  | TVal.thunk q => q

/-- A tween descriptor `[startTime, endTime, func, from, to, easer]`
(line 252). `id` identifies the apply callback `func`. -/
structure Tween where
  startTime : ℚ
  endTime : ℚ
  id : ℕ
  fromValue : TVal
  toValue : TVal
  easer : Option (ℚ → ℚ)

/-- `CURRENT_ORDER_NONE / _FORWARD / _BACKWARD` (lines 113-115). -/
inductive OrderFlag where
  | none : OrderFlag
  | forward : OrderFlag
  | backward : OrderFlag
deriving DecidableEq, Repr

/-- Errors the engine can raise: the two reentrancy throws (lines 194, 275),
the one-way direction throw (line 196), the strict-mode ReferenceError raised
by the purge callback (line 138), plus a model-only sentinel bounding the
loop-unrolling recursion (never produced when `loopAt` is null). -/
inductive JsError where
  | reentrancy : JsError
  | wrongWay : JsError
  | referenceError : JsError
  | fuelOut : JsError
deriving DecidableEq, Repr

/-- The whole per-instance state of `Timeline` (lines 119-130, 192, 267-269),
plus the observable `trace` of callback invocations. -/
structure State where
  position : ℚ
  events : List (ℚ × List Entry)
  tweens : List Tween
  loopAt : Option ℚ
  loopRewind : Bool
  oneWay : Bool
  currentTweenOrder : OrderFlag
  currentEventOrder : OrderFlag
  sortedEvents : List ℚ
  purgeTimer : Bool
  purgeTweens : Bool
  purgeEvents : Bool
  seeking : Bool
  trace : List Action

/-- A fresh `Timeline()`: position 0, empty stores, all flags cleared. -/
def init : State :=
  { position := 0, events := [], tweens := [], loopAt := Option.none,
    loopRewind := false, oneWay := false,
    currentTweenOrder := OrderFlag.none, currentEventOrder := OrderFlag.none,
    sortedEvents := [], purgeTimer := false, purgeTweens := false,
    purgeEvents := false, seeking := false, trace := [] }

/-- `events[t]` lookup in the events object. -/
def eventsGet (es : List (ℚ × List Entry)) (t : ℚ) : Option (List Entry) :=
  (es.find? (fun p => decide (p.1 = t))).map (fun p => p.2)

/-- `events[t] = b`: replace the bucket of an existing key in place, or add the
key when absent. -/
def eventsSet (es : List (ℚ × List Entry)) (t : ℚ) (b : List Entry) :
    List (ℚ × List Entry) :=
  if (es.find? (fun p => decide (p.1 = t))).isSome then
    es.map (fun p => if p.1 = t then (t, b) else p)
  else es ++ [(t, b)]

/-- `Object.keys(events)` mapped through `Number` (lines 154-155). -/
def eventKeys (es : List (ℚ × List Entry)) : List ℚ := es.map (fun p => p.1)

/-- The bucket stored at time `t` (empty when the key is absent). -/
def bucketAt (es : List (ℚ × List Entry)) (t : ℚ) : List Entry :=
  (eventsGet es t).getD []

/-- `sortFnInc` (line 105).  Note that as an `Array.sort` comparator this
returns 1 when `a < b`, i.e. it yields a descending order. -/
def sortFnInc (a b : ℚ) : Int := if a = b then 0 else if a < b then 1 else -1

/-- `sortFnDec` (line 106): as a comparator this yields an ascending order. -/
def sortFnDec (a b : ℚ) : Int := if a = b then 0 else if a > b then 1 else -1

/-- `sortTweenFnForward` (line 107): ascending by end time. -/
def sortTweenFnForward (a b : Tween) : Int :=
  if a.endTime = b.endTime then 0 else if a.endTime > b.endTime then 1 else -1

/-- `sortTweenFnBackward` (line 108): descending by start time. -/
def sortTweenFnBackward (a b : Tween) : Int :=
  if a.startTime = b.startTime then 0 else if a.startTime < b.startTime then 1 else -1

/-- JS `Array.prototype.sort(cmp)`: a stable sort that places `a` no later
than `b` when `cmp a b ≤ 0` (modelled by a stable insertion sort). -/
def jsSort {α : Type} (cmp : α → α → Int) (xs : List α) : List α :=
  List.insertionSort (fun a b => cmp a b ≤ 0) xs

/-- `sort(reverse)` (lines 145-159): lazily re-sort the tween list and the
event key list, skipping a list whose cached order already matches. -/
def sort (st : State) (reverse : Bool) : State :=
  let so := if reverse then OrderFlag.backward else OrderFlag.forward
  let st1 :=
    if st.currentTweenOrder ≠ so then
      { st with
          tweens := jsSort (if reverse then sortTweenFnBackward else sortTweenFnForward) st.tweens,
          currentTweenOrder := so }
    else st
  if st1.currentEventOrder ≠ so then
    { st1 with
        sortedEvents := jsSort (if reverse then sortFnDec else sortFnInc) (eventKeys st1.events),
        currentEventOrder := so }
  else st1

/-- `setDeferredPurge` (lines 132-143): arm the purge timer if not armed.  The
timer's callback itself is `runPurge` below. -/
def setDeferredPurge (st : State) : State :=
  if st.purgeTimer then st else { st with purgeTimer := true }

/-- The range-overlap cancellation test of `applyTweens` (lines 168-170). -/
def tweenSkip (fromPos toPos : ℚ) (tw : Tween) : Bool :=
  (decide (toPos ≥ fromPos) && decide (max tw.startTime fromPos > min tw.endTime toPos)) ||
  (decide (toPos < fromPos) && decide (max tw.startTime toPos > min tw.endTime fromPos))

/-- The raw progress computation of `applyTweens` (lines 172-184). -/
def tweenProgress (toPos : ℚ) (tw : Tween) : ℚ :=
  if toPos ≤ tw.startTime then 0
  else if toPos > tw.endTime then 1
  else (toPos - tw.startTime) / (tw.endTime - tw.startTime)

/-- The value passed to a tween's apply callback (lines 185-188): eased
progress interpolated between the resolved bounds. -/
def tweenValue (toPos : ℚ) (tw : Tween) : ℚ :=
  let progress := tweenProgress toPos tw
  let progress :=
    match tw.easer with
    | some e => e progress
    | Option.none => progress
  tw.fromValue.resolve + progress * (tw.toValue.resolve - tw.fromValue.resolve)

/-- One iteration of the `tweens.forEach` body of `applyTweens`
(lines 163-189): skip non-overlapping tweens, flag fully elapsed tweens for
purge in one-way mode, and invoke the apply callback. -/
def applyTweenStep (fromPos toPos : ℚ) (s : State) (tw : Tween) : State :=
  if tweenSkip fromPos toPos tw then s
  else
    let s :=
      if toPos ≤ tw.startTime then s
      else if toPos > tw.endTime then
        (if s.oneWay then setDeferredPurge { s with purgeTweens := true } else s)
      else s
    { s with trace := s.trace ++ [Action.tweenApply tw.id (tweenValue toPos tw)] }

/-- `applyTweens(to)` (lines 161-190), with `from` bound to the current
position. -/
def applyTweens (st : State) (toPos : ℚ) : State :=
  st.tweens.foldl (applyTweenStep st.position toPos) st

/-- `timeline.at(time, func, undo)` (lines 259-265).  The returned chaining
handle is pure sugar and is not modelled. -/
def atEvent (st : State) (time : ℚ) (fid : ℕ) (undo : Undo) : State :=
  let bucket := bucketAt st.events time
  let st := { st with events := eventsSet st.events time (bucket ++ [Entry.mk fid undo]) }
  let st := if st.position = time then { st with trace := st.trace ++ [Action.fwd fid] } else st
  { st with currentEventOrder := OrderFlag.none }

/-- `timeline.tween(startTime, duration, func, from, to, easer)`
(lines 249-257).  `func` is a function by construction, so the typeof guard
(line 250) cannot fire; the chaining handle is not modelled. -/
def tween (st : State) (startTime duration : ℚ) (fid : ℕ) (fromV toV : TVal)
    (easer : Option (ℚ → ℚ)) : State :=
  let endTime := startTime + duration
  let st := { st with tweens := st.tweens ++ [Tween.mk startTime endTime fid fromV toV easer] }
  let st := if startTime ≤ st.position ∧ endTime ≥ st.position then applyTweens st st.position else st
  { st with currentTweenOrder := OrderFlag.none }

/-- `timeline.jump(n)` (lines 274-277).  An error result models the throw, in
which case the engine state is untouched. -/
def jump (st : State) (n : ℚ) : Except JsError State :=
  if st.seeking then Except.error JsError.reentrancy
  else Except.ok { st with position := n }

/-- The event time-window filter of `seek` (lines 213-217). -/
def seekTimestamps (sortedEvents : List ℚ) (position n : ℚ) : List ℚ :=
  if n < position then sortedEvents.filter (fun k => decide (k < position) && decide (k ≥ n))
  else sortedEvents.filter (fun k => decide (k > position) && decide (k ≤ n))

/-- One iteration of `timestamps.forEach` (lines 218-224).  Note that
`funcs.reverse()` is `Array.prototype.reverse`, which reverses the stored
bucket in place; the model writes the reversed bucket back to the store. -/
def fireBucket (reversing : Bool) (s : State) (k : ℚ) : State :=
  let s := { s with position := k }
  let funcs := bucketAt s.events k
  if reversing then
    let funcs := funcs.reverse
    let s := { s with events := eventsSet s.events k funcs }
    { s with trace := s.trace ++ funcs.flatMap callUndo }
  else
    { s with trace := s.trace ++ funcs.flatMap callFunc }

/-- The body of the try block of `seek` (lines 212-233), entered with
`seeking = true`: replay the windowed events, restore the position, apply the
tweens at the target, flag a one-way purge, and commit the target position. -/
def seekBody (st : State) (n : ℚ) : State :=
  let fromPos := st.position
  let reversing := decide (n < st.position)
  let timestamps := seekTimestamps st.sortedEvents st.position n
  let st := timestamps.foldl (fireBucket reversing) st
  let st := { st with position := fromPos }
  let st := applyTweens st n
  let st := if st.oneWay ∧ timestamps ≠ [] then setDeferredPurge { st with purgeEvents := true } else st
  { st with position := n }

/-- The tail of `seek` after the while loop (lines 207-236): the
`n === loopAt` collapse, the direction sort, and the replay body wrapped in
the seeking guard (`finally` always clears the flag; no modelled handler
throws). -/
def seekAfterLoop (st : State) (n : ℚ) : Except JsError State :=
  let n := if st.loopAt = some n then 0 else n
  let st := sort st (decide (n < st.position))
  let st := seekBody { st with seeking := true } n
  Except.ok { st with seeking := false }

mutual

/-- `timeline.seek(n)` (lines 192-237): reentrancy guard, idempotence at the
current position, the one-way direction guard, loop unrolling, and the replay
tail.  `fuel` bounds the loop-unrolling recursion only: it is consumed solely
when the while loop (lines 197-206) must run, and is irrelevant whenever
`loopAt` is null. -/
def seek : ℕ → State → ℚ → Except JsError State
  | fuel, st, n =>
    if st.seeking then Except.error JsError.reentrancy
    else if n = st.position then Except.ok st
    else if st.oneWay ∧ n < st.position then Except.error JsError.wrongWay
    else
      match fuel with
      | 0 =>
        match st.loopAt with
        | Option.none => seekAfterLoop st n
        | some L => if L > 0 ∧ n > L then Except.error JsError.fuelOut else seekAfterLoop st n
      | fuel + 1 =>
        match seekWhile fuel st n with
        | Except.error e => Except.error e
        | Except.ok (st, n) => seekAfterLoop st n

/-- The while loop of `seek` (lines 197-206): process each passed-over loop
iteration with a recursive seek, then rewind (full backward replay) or
teleport to 0, and continue with the remaining displacement. -/
def seekWhile : ℕ → State → ℚ → Except JsError (State × ℚ)
  | fuel, st, n =>
    match st.loopAt with
    | Option.none => Except.ok (st, n)
    | some L =>
      if L > 0 ∧ n > L then
        match fuel with
        | 0 => Except.error JsError.fuelOut
        | fuel + 1 =>
          match seek fuel st L with
          | Except.error e => Except.error e
          | Except.ok st2 =>
            match (if st2.loopRewind then seek fuel st2 0 else Except.ok { st2 with position := 0 }) with
            | Except.error e => Except.error e
            | Except.ok st3 => seekWhile fuel st3 (n - L)
      else Except.ok (st, n)

end

/-- `timeline.tick(n)` (line 278): sugar for a relative seek. -/
def tick (fuel : ℕ) (st : State) (n : ℚ) : Except JsError State :=
  seek fuel st (st.position + n)

/-- The `oneWay` property setter (lines 299-306). -/
def setOneWay (st : State) (v : Bool) : State :=
  let st := { st with oneWay := v }
  if st.oneWay then setDeferredPurge st else st

/-- The deferred purge callback (lines 134-141): disarm the timer, filter the
tween list, then purge event buckets.  The events branch compares each key
against the undeclared variable `n` (line 138), which in strict mode raises a
ReferenceError on the first key visited, so the error is raised exactly when
`purgeEvents` is set and the events store is non-empty — after the tween
filter and timer reset have already taken effect, and before `purgeTweens` is
cleared (line 140). -/
def runPurge (st : State) : State × Option JsError :=
  let st := { st with purgeTimer := false }
  let st :=
    if st.purgeTweens then
      { st with tweens := st.tweens.filter (fun tw => decide (tw.endTime ≥ st.position)) }
    else st
  if st.purgeEvents ∧ st.events ≠ [] then (st, some JsError.referenceError)
  else ({ st with purgeTweens := false }, Option.none)

/-- The property names installed on a Timeline instance: the keys of the `api`
object literal (lines 271-319), applied via `Object.defineProperties`
(lines 320-324). -/
def apiKeys : List String :=
  ["at", "in", "jump", "tick", "seek", "tween", "loopAt", "play", "pause",
   "oneWay", "timescale", "position"]

/-- Run a list of seek calls left to right, propagating the first error. -/
def seekSeq (fuel : ℕ) (st : State) (ns : List ℚ) : Except JsError State :=
  ns.foldl (fun acc n => acc.bind (fun s => seek fuel s n)) (Except.ok st)

/-- The list of event times a plain (non-looping) seek replays: the state is
sorted for the direction of travel and the window filter applied (lines 208
and 213-217). -/
def seekFiredTimes (st : State) (n : ℚ) : List ℚ :=
  let st := sort st (decide (n < st.position))
  seekTimestamps st.sortedEvents st.position n

/-- A state on which a plain seek runs: not mid-seek, no loop boundary, two-way
mode, distinct bucket times, and an event order cache that is either
invalidated or a permutation of the live key set. -/
def SeekReady (st : State) : Prop :=
  st.seeking = false ∧ st.loopAt = Option.none ∧ st.oneWay = false ∧
    (eventKeys st.events).Nodup ∧
    (st.currentEventOrder = OrderFlag.none ∨ st.sortedEvents.Perm (eventKeys st.events))

/-- The store holds exactly one entry whose forward handler is `i` or whose
undo callback is `u`: a single occurrence of the pair `(i, fn u)` in the
bucket at time `t`. -/
def Tracks (st : State) (t : ℚ) (i u : ℕ) : Prop :=
  (∀ p ∈ st.events, ∀ e ∈ p.2, (e.id = i ∨ e.undo = Undo.fn u) → p.1 = t ∧ e = Entry.mk i (Undo.fn u)) ∧
  (bucketAt st.events t).countP (fun e => decide (e = Entry.mk i (Undo.fn u))) = 1

instance (st : State) : Decidable (SeekReady st) := by
  unfold SeekReady
  infer_instance

instance (st : State) (t : ℚ) (i u : ℕ) : Decidable (Tracks st t i u) := by
  unfold Tracks
  infer_instance

/-! Helper lemmas about the events store. -/

theorem eventsGet_isSome_iff_mem (es : List (ℚ × List Entry)) (k : ℚ) :
    (eventsGet es k).isSome ↔ k ∈ eventKeys es := by
  cases hf : es.find? (fun p => decide (p.1 = k)) with
  | none =>
    have h1 : eventsGet es k = Option.none := by unfold eventsGet; rw [hf]; rfl
    have h2 : k ∉ eventKeys es := by
      intro hk
      rcases List.mem_map.mp hk with ⟨p, hp, hpk⟩
      have := (List.find?_eq_none.mp hf) p hp
      simp [hpk] at this
    simp [h1, h2]
  | some p =>
    have h1 : eventsGet es k = some p.2 := by unfold eventsGet; rw [hf]; rfl
    have hpk : p.1 = k := by simpa using List.find?_some hf
    have h2 : k ∈ eventKeys es := List.mem_map.mpr ⟨p, List.mem_of_find?_eq_some hf, hpk⟩
    simp [h1, h2]

theorem mem_of_mem_bucketAt (es : List (ℚ × List Entry)) (k : ℚ) (e : Entry)
    (he : e ∈ bucketAt es k) : ∃ p ∈ es, p.1 = k ∧ e ∈ p.2 := by
  cases hf : es.find? (fun p => decide (p.1 = k)) with
  | none =>
    exfalso
    have hb : bucketAt es k = [] := by unfold bucketAt eventsGet; rw [hf]; rfl
    rw [hb] at he
    exact absurd he (List.not_mem_nil e)
  | some p =>
    have hb : bucketAt es k = p.2 := by unfold bucketAt eventsGet; rw [hf]; rfl
    have hpk : p.1 = k := by simpa using List.find?_some hf
    exact ⟨p, List.mem_of_find?_eq_some hf, hpk, hb ▸ he⟩

theorem eventKeys_eventsSet (es : List (ℚ × List Entry)) (t : ℚ) (b : List Entry)
    (h : (es.find? (fun p => decide (p.1 = t))).isSome) :
    eventKeys (eventsSet es t b) = eventKeys es := by
  unfold eventsSet
  rw [if_pos h]
  unfold eventKeys
  rw [List.map_map]
  refine List.map_congr_left (fun p _ => ?_)
  by_cases hp : p.1 = t <;> simp [hp]

theorem find?_map_replace (es : List (ℚ × List Entry)) (t : ℚ) (b : List Entry) (k : ℚ) :
    (es.map (fun p => if p.1 = t then (t, b) else p)).find? (fun p => decide (p.1 = k))
      = (es.find? (fun p => decide (p.1 = k))).map (fun p => if p.1 = t then (t, b) else p) := by
  induction es with
  | nil => rfl
  | cons p es ih =>
    rw [List.map_cons]
    by_cases hpt : p.1 = t
    · by_cases hp : p.1 = k
      · have htk : t = k := by rw [← hpt, hp]
        simp [List.find?_cons, hpt, hp, htk]
      · have htk : ¬ (t = k) := by rw [← hpt]; exact hp
        simp [List.find?_cons, hpt, hp, htk, ih]
    · by_cases hp : p.1 = k
      · have hkt : ¬ (k = t) := by rw [← hp]; exact hpt
        simp [List.find?_cons, hpt, hp, hkt]
      · simp [List.find?_cons, hpt, hp, ih]

theorem bucketAt_eventsSet_self (es : List (ℚ × List Entry)) (t : ℚ) (b : List Entry)
    (h : (es.find? (fun p => decide (p.1 = t))).isSome) :
    bucketAt (eventsSet es t b) t = b := by
  unfold eventsSet bucketAt eventsGet
  rw [if_pos h, find?_map_replace]
  cases hf : es.find? (fun p => decide (p.1 = t)) with
  | none => rw [hf] at h; simp at h
  | some p =>
    have hpt : p.1 = t := by simpa using List.find?_some hf
    simp [hpt]

theorem bucketAt_eventsSet_other (es : List (ℚ × List Entry)) (t : ℚ) (b : List Entry)
    (k : ℚ) (hk : k ≠ t) (h : (es.find? (fun p => decide (p.1 = t))).isSome) :
    bucketAt (eventsSet es t b) k = bucketAt es k := by
  unfold eventsSet bucketAt eventsGet
  rw [if_pos h, find?_map_replace]
  cases hf : es.find? (fun p => decide (p.1 = k)) with
  | none => rfl
  | some p =>
    have hpk : p.1 = k := by simpa using List.find?_some hf
    have hpt : ¬ (p.1 = t) := fun hc => hk (hpk ▸ hc ▸ rfl)
    simp [hpt]

/-! Counting the actions emitted by a bucket replay. -/

theorem count_flatMap_eq_countP (f : Entry → List Action) (a : Action) (g : Entry → Bool)
    (hg : ∀ e, (f e).count a = if g e then 1 else 0) :
    ∀ l : List Entry, (l.flatMap f).count a = l.countP g := by
  intro l
  induction l with
  | nil => rfl
  | cons e l ih =>
    rw [List.flatMap_cons, List.count_append, hg e, ih, List.countP_cons]
    exact Nat.add_comm _ _

theorem count_callFunc_fwd (i : ℕ) (l : List Entry) :
    (l.flatMap callFunc).count (Action.fwd i) = l.countP (fun e => decide (e.id = i)) := by
  refine count_flatMap_eq_countP _ _ _ (fun e => ?_) l
  by_cases h : e.id = i <;> simp [callFunc, List.count_cons, h]

theorem count_callFunc_undoFn (u : ℕ) (l : List Entry) :
    (l.flatMap callFunc).count (Action.undoFn u) = l.countP (fun _ => false) := by
  refine count_flatMap_eq_countP _ _ _ (fun e => ?_) l
  simp [callFunc, List.count_cons]

theorem count_callUndo_fwd (i : ℕ) (l : List Entry) :
    (l.flatMap callUndo).count (Action.fwd i)
      = l.countP (fun e => decide (e.undo = Undo.self) && decide (e.id = i)) := by
  refine count_flatMap_eq_countP _ _ _ (fun e => ?_) l
  cases hu : e.undo with
  | null => simp [callUndo, hu]
  | self => by_cases h : e.id = i <;> simp [callUndo, hu, List.count_cons, h]
  | fn v => simp [callUndo, hu, List.count_cons]

theorem count_callUndo_undoFn (u : ℕ) (l : List Entry) :
    (l.flatMap callUndo).count (Action.undoFn u)
      = l.countP (fun e => decide (e.undo = Undo.fn u)) := by
  refine count_flatMap_eq_countP _ _ _ (fun e => ?_) l
  cases hu : e.undo with
  | null => simp [callUndo, hu]
  | self => simp [callUndo, hu, List.count_cons]
  | fn v => by_cases h : v = u <;> simp [callUndo, hu, List.count_cons, h]

theorem countP_reverse (g : Entry → Bool) (l : List Entry) :
    l.reverse.countP g = l.countP g := by
  induction l with
  | nil => rfl
  | cons e l ih =>
    rw [List.reverse_cons, List.countP_append, List.countP_cons, ih, List.countP_cons,
      List.countP_nil]
    omega

theorem sum_map_indicator (t : ℚ) (c : ℕ) :
    ∀ ks : List ℚ, ks.Nodup →
      (ks.map (fun k => if k = t then c else 0)).sum = if t ∈ ks then c else 0 := by
  intro ks
  induction ks with
  | nil => simp
  | cons k ks ih =>
    intro hnd
    rw [List.map_cons, List.sum_cons, ih (List.Nodup.of_cons hnd)]
    by_cases hk : k = t
    · subst hk
      have htks : k ∉ ks := (List.nodup_cons.mp hnd).1
      simp [htks]
    · have hk' : ¬ (t = k) := fun h => hk h.symm
      by_cases ht : t ∈ ks <;> simp [hk, hk', ht, List.mem_cons]

/-! Properties of the lazy sort. -/

theorem jsSort_perm {α : Type} (cmp : α → α → Int) (xs : List α) :
    (jsSort cmp xs).Perm xs :=
  List.perm_insertionSort _ xs

theorem sort_proj (st : State) (r : Bool) :
    (sort st r).events = st.events ∧ (sort st r).position = st.position ∧
    (sort st r).trace = st.trace ∧ (sort st r).seeking = st.seeking ∧
    (sort st r).oneWay = st.oneWay ∧ (sort st r).loopAt = st.loopAt := by
  simp only [sort]
  by_cases h1 : st.currentTweenOrder ≠ (if r then OrderFlag.backward else OrderFlag.forward) <;>
    by_cases h2 : st.currentEventOrder = (if r then OrderFlag.backward else OrderFlag.forward) <;>
    simp [h1, h2]

theorem sort_sortedEvents_perm (st : State) (r : Bool)
    (hcache : st.currentEventOrder = OrderFlag.none ∨ st.sortedEvents.Perm (eventKeys st.events)) :
    (sort st r).sortedEvents.Perm (eventKeys st.events) := by
  by_cases h2 : st.currentEventOrder = (if r then OrderFlag.backward else OrderFlag.forward)
  · have hne : ¬ (st.currentEventOrder = OrderFlag.none) := by
      rw [h2]; cases r <;> simp
    have hperm := hcache.resolve_left hne
    have hse : (sort st r).sortedEvents = st.sortedEvents := by
      simp only [sort]
      by_cases h1 : st.currentTweenOrder ≠ (if r then OrderFlag.backward else OrderFlag.forward) <;>
        simp [h1, h2]
    rw [hse]
    exact hperm
  · have hse : (sort st r).sortedEvents
        = jsSort (if r then sortFnDec else sortFnInc) (eventKeys st.events) := by
      simp only [sort]
      by_cases h1 : st.currentTweenOrder ≠ (if r then OrderFlag.backward else OrderFlag.forward) <;>
        simp [h1, h2]
    rw [hse]
    exact jsSort_perm _ _

theorem sort_currentEventOrder (st : State) (r : Bool) :
    (sort st r).currentEventOrder = (if r then OrderFlag.backward else OrderFlag.forward) := by
  simp only [sort]
  by_cases h1 : st.currentTweenOrder ≠ (if r then OrderFlag.backward else OrderFlag.forward) <;>
    by_cases h2 : st.currentEventOrder = (if r then OrderFlag.backward else OrderFlag.forward) <;>
    simp [h1, h2]

/-! Properties of a single bucket replay and of the replay fold. -/

theorem eventsGet_isSome_find (es : List (ℚ × List Entry)) (k : ℚ)
    (h : (eventsGet es k).isSome) : (es.find? (fun p => decide (p.1 = k))).isSome := by
  unfold eventsGet at h
  cases hf : es.find? (fun p => decide (p.1 = k)) with
  | none => rw [hf] at h; simp at h
  | some p => rfl

theorem fireBucket_trace (rev : Bool) (s : State) (k : ℚ) :
    (fireBucket rev s k).trace = s.trace ++
      (if rev then (bucketAt s.events k).reverse.flatMap callUndo
       else (bucketAt s.events k).flatMap callFunc) := by
  unfold fireBucket
  cases rev <;> simp

theorem fireBucket_pres (rev : Bool) (s : State) (k : ℚ)
    (hk : (eventsGet s.events k).isSome) :
    eventKeys (fireBucket rev s k).events = eventKeys s.events ∧
    (∀ (t : ℚ) (q : Entry → Bool),
      (bucketAt (fireBucket rev s k).events t).countP q = (bucketAt s.events t).countP q) ∧
    (∀ p ∈ (fireBucket rev s k).events, ∀ e ∈ p.2, ∃ p0 ∈ s.events, p0.1 = p.1 ∧ e ∈ p0.2) ∧
    (fireBucket rev s k).tweens = s.tweens ∧
    (fireBucket rev s k).seeking = s.seeking ∧
    (fireBucket rev s k).oneWay = s.oneWay ∧
    (fireBucket rev s k).loopAt = s.loopAt ∧
    (fireBucket rev s k).sortedEvents = s.sortedEvents ∧
    (fireBucket rev s k).currentEventOrder = s.currentEventOrder ∧
    (fireBucket rev s k).purgeTimer = s.purgeTimer ∧
    (fireBucket rev s k).purgeTweens = s.purgeTweens ∧
    (fireBucket rev s k).purgeEvents = s.purgeEvents := by
  cases rev with
  | false =>
    refine ⟨rfl, fun t q => rfl, fun p hp e he => ⟨p, hp, rfl, he⟩,
      rfl, rfl, rfl, rfl, rfl, rfl, rfl, rfl, rfl⟩
  | true =>
    have hfind : ((s.events).find? (fun p => decide (p.1 = k))).isSome :=
      eventsGet_isSome_find _ _ hk
    have hev : (fireBucket true s k).events
        = eventsSet s.events k (bucketAt s.events k).reverse := by
      unfold fireBucket
      simp
    refine ⟨?_, ?_, ?_, rfl, rfl, rfl, rfl, rfl, rfl, rfl, rfl, rfl⟩
    · rw [hev]
      exact eventKeys_eventsSet _ _ _ hfind
    · intro t q
      rw [hev]
      by_cases ht : t = k
      · subst ht
        rw [bucketAt_eventsSet_self _ _ _ hfind, countP_reverse]
      · rw [bucketAt_eventsSet_other _ _ _ _ ht hfind]
    · intro p hp e he
      rw [hev] at hp
      unfold eventsSet at hp
      rw [if_pos hfind] at hp
      rcases List.mem_map.mp hp with ⟨p0, hp0, hfp⟩
      by_cases hp0k : p0.1 = k
      · rw [if_pos hp0k] at hfp
        subst hfp
        have he2 : e ∈ bucketAt s.events k := by
          have : e ∈ (bucketAt s.events k).reverse := he
          exact List.mem_reverse.mp this
        rcases mem_of_mem_bucketAt _ _ _ he2 with ⟨p1, hp1, hp1k, hep1⟩
        exact ⟨p1, hp1, hp1k, hep1⟩
      · rw [if_neg hp0k] at hfp
        subst hfp
        exact ⟨p0, hp0, rfl, he⟩

theorem foldl_fire_pres (rev : Bool) :
    ∀ (ks : List ℚ) (s : State), (∀ k ∈ ks, (eventsGet s.events k).isSome) →
      eventKeys (ks.foldl (fireBucket rev) s).events = eventKeys s.events ∧
      (∀ (t : ℚ) (q : Entry → Bool),
        (bucketAt (ks.foldl (fireBucket rev) s).events t).countP q
          = (bucketAt s.events t).countP q) ∧
      (∀ p ∈ (ks.foldl (fireBucket rev) s).events, ∀ e ∈ p.2,
        ∃ p0 ∈ s.events, p0.1 = p.1 ∧ e ∈ p0.2) ∧
      (ks.foldl (fireBucket rev) s).tweens = s.tweens ∧
      (ks.foldl (fireBucket rev) s).seeking = s.seeking ∧
      (ks.foldl (fireBucket rev) s).oneWay = s.oneWay ∧
      (ks.foldl (fireBucket rev) s).loopAt = s.loopAt ∧
      (ks.foldl (fireBucket rev) s).sortedEvents = s.sortedEvents ∧
      (ks.foldl (fireBucket rev) s).currentEventOrder = s.currentEventOrder := by
  intro ks
  induction ks with
  | nil => exact fun s _ => ⟨rfl, fun t q => rfl, fun p hp e he => ⟨p, hp, rfl, he⟩,
      rfl, rfl, rfl, rfl, rfl, rfl⟩
  | cons k ks ih =>
    intro s hks
    rw [List.foldl_cons]
    have hk : (eventsGet s.events k).isSome := hks k (List.mem_cons_self k ks)
    obtain ⟨hkeys, hcnt, hconf, htw, hsk, how, hlp, hse, hce, _, _, _⟩ :=
      fireBucket_pres rev s k hk
    have hks2 : ∀ k2 ∈ ks, (eventsGet (fireBucket rev s k).events k2).isSome := by
      intro k2 hk2
      rw [eventsGet_isSome_iff_mem, hkeys, ← eventsGet_isSome_iff_mem]
      exact hks k2 (List.mem_cons_of_mem k hk2)
    obtain ⟨ikeys, icnt, iconf, itw, isk, iow, ilp, ise, ice⟩ := ih (fireBucket rev s k) hks2
    refine ⟨ikeys.trans hkeys, fun t q => (icnt t q).trans (hcnt t q), ?_,
      itw.trans htw, isk.trans hsk, iow.trans how, ilp.trans hlp,
      ise.trans hse, ice.trans hce⟩
    intro p hp e he
    rcases iconf p hp e he with ⟨p0, hp0, hp00, hep0⟩
    rcases hconf p0 hp0 e hep0 with ⟨p1, hp1, hp11, hep1⟩
    exact ⟨p1, hp1, hp11.trans hp00, hep1⟩

theorem foldl_fire_count (rev : Bool) (a : Action) (g : Entry → Bool)
    (hcount : ∀ funcs : List Entry,
      ((if rev then funcs.reverse.flatMap callUndo else funcs.flatMap callFunc).count a
        = funcs.countP g)) :
    ∀ (ks : List ℚ) (s : State), (∀ k ∈ ks, (eventsGet s.events k).isSome) →
      (ks.foldl (fireBucket rev) s).trace.count a
        = s.trace.count a + (ks.map (fun k => (bucketAt s.events k).countP g)).sum := by
  intro ks
  induction ks with
  | nil => intro s _; simp
  | cons k ks ih =>
    intro s hks
    rw [List.foldl_cons]
    have hk : (eventsGet s.events k).isSome := hks k (List.mem_cons_self k ks)
    obtain ⟨hkeys, hcnt, _, _, _, _, _, _, _⟩ := foldl_fire_pres rev [] s (by simp)
    obtain ⟨fkeys, fcnt, _, _, _, _, _, _, _, _, _, _⟩ := fireBucket_pres rev s k hk
    have hks2 : ∀ k2 ∈ ks, (eventsGet (fireBucket rev s k).events k2).isSome := by
      intro k2 hk2
      rw [eventsGet_isSome_iff_mem, fkeys, ← eventsGet_isSome_iff_mem]
      exact hks k2 (List.mem_cons_of_mem k hk2)
    rw [ih (fireBucket rev s k) hks2]
    have htr : (fireBucket rev s k).trace.count a
        = s.trace.count a + (bucketAt s.events k).countP g := by
      rw [fireBucket_trace, List.count_append, hcount]
    have hmap : ks.map (fun k2 => (bucketAt (fireBucket rev s k).events k2).countP g)
        = ks.map (fun k2 => (bucketAt s.events k2).countP g) :=
      List.map_congr_left (fun k2 _ => fcnt k2 g)
    rw [htr, hmap, List.map_cons, List.sum_cons, Nat.add_assoc]

theorem applyTweenStep_pres (fromPos toPos : ℚ) (s : State) (tw : Tween) :
    (applyTweenStep fromPos toPos s tw).events = s.events ∧
    (applyTweenStep fromPos toPos s tw).position = s.position ∧
    (applyTweenStep fromPos toPos s tw).seeking = s.seeking ∧
    (applyTweenStep fromPos toPos s tw).oneWay = s.oneWay ∧
    (applyTweenStep fromPos toPos s tw).loopAt = s.loopAt ∧
    (applyTweenStep fromPos toPos s tw).sortedEvents = s.sortedEvents ∧
    (applyTweenStep fromPos toPos s tw).currentEventOrder = s.currentEventOrder ∧
    (applyTweenStep fromPos toPos s tw).tweens = s.tweens ∧
    ∀ a : Action, (∀ (j : ℕ) (v : ℚ), a ≠ Action.tweenApply j v) →
      (applyTweenStep fromPos toPos s tw).trace.count a = s.trace.count a := by
  unfold applyTweenStep setDeferredPurge
  split_ifs <;>
    refine ⟨rfl, rfl, rfl, rfl, rfl, rfl, rfl, rfl, fun a ha => ?_⟩ <;>
    simp [List.count_append, List.count_cons, ha tw.id (tweenValue toPos tw)]

theorem foldl_applyTweenStep_pres (fromPos toPos : ℚ) :
    ∀ (l : List Tween) (s : State),
      (l.foldl (applyTweenStep fromPos toPos) s).events = s.events ∧
      (l.foldl (applyTweenStep fromPos toPos) s).position = s.position ∧
      (l.foldl (applyTweenStep fromPos toPos) s).seeking = s.seeking ∧
      (l.foldl (applyTweenStep fromPos toPos) s).oneWay = s.oneWay ∧
      (l.foldl (applyTweenStep fromPos toPos) s).loopAt = s.loopAt ∧
      (l.foldl (applyTweenStep fromPos toPos) s).sortedEvents = s.sortedEvents ∧
      (l.foldl (applyTweenStep fromPos toPos) s).currentEventOrder = s.currentEventOrder ∧
      ∀ a : Action, (∀ (j : ℕ) (v : ℚ), a ≠ Action.tweenApply j v) →
        (l.foldl (applyTweenStep fromPos toPos) s).trace.count a = s.trace.count a := by
  intro l
  induction l with
  | nil => exact fun s => ⟨rfl, rfl, rfl, rfl, rfl, rfl, rfl, fun a _ => rfl⟩
  | cons tw l ih =>
    intro s
    rw [List.foldl_cons]
    obtain ⟨hev, hpos, hsk, how, hlp, hse, hce, _, hcn⟩ := applyTweenStep_pres fromPos toPos s tw
    obtain ⟨iev, ipos, isk, iow, ilp, ise, ice, icn⟩ := ih (applyTweenStep fromPos toPos s tw)
    exact ⟨iev.trans hev, ipos.trans hpos, isk.trans hsk, iow.trans how, ilp.trans hlp,
      ise.trans hse, ice.trans hce, fun a ha => (icn a ha).trans (hcn a ha)⟩

theorem applyTweens_pres (st : State) (toPos : ℚ) :
    (applyTweens st toPos).events = st.events ∧
    (applyTweens st toPos).position = st.position ∧
    (applyTweens st toPos).seeking = st.seeking ∧
    (applyTweens st toPos).oneWay = st.oneWay ∧
    (applyTweens st toPos).loopAt = st.loopAt ∧
    (applyTweens st toPos).sortedEvents = st.sortedEvents ∧
    (applyTweens st toPos).currentEventOrder = st.currentEventOrder ∧
    ∀ a : Action, (∀ (j : ℕ) (v : ℚ), a ≠ Action.tweenApply j v) →
      (applyTweens st toPos).trace.count a = st.trace.count a :=
  foldl_applyTweenStep_pres st.position toPos st.tweens st

/-! The main decomposition of a (non-looping) seek. -/

theorem seekBody_spec (s : State) (n : ℚ)
    (how : s.oneWay = false)
    (hperm : s.sortedEvents.Perm (eventKeys s.events)) :
    (seekBody s n).position = n ∧
    (seekBody s n).seeking = s.seeking ∧
    (seekBody s n).loopAt = s.loopAt ∧
    (seekBody s n).oneWay = false ∧
    (seekBody s n).sortedEvents = s.sortedEvents ∧
    (seekBody s n).currentEventOrder = s.currentEventOrder ∧
    eventKeys (seekBody s n).events = eventKeys s.events ∧
    (∀ (k : ℚ) (q : Entry → Bool),
      (bucketAt (seekBody s n).events k).countP q = (bucketAt s.events k).countP q) ∧
    (∀ p ∈ (seekBody s n).events, ∀ e ∈ p.2, ∃ p0 ∈ s.events, p0.1 = p.1 ∧ e ∈ p0.2) ∧
    (∀ (a : Action) (gf gb : Entry → Bool),
      (∀ l : List Entry, (l.flatMap callFunc).count a = l.countP gf) →
      (∀ l : List Entry, (l.flatMap callUndo).count a = l.countP gb) →
      (∀ (j : ℕ) (v : ℚ), a ≠ Action.tweenApply j v) →
      (seekBody s n).trace.count a = s.trace.count a +
        (if n < s.position then
          (((eventKeys s.events).filter (fun k => decide (k < s.position) && decide (k ≥ n))).map
            (fun k => (bucketAt s.events k).countP gb)).sum
        else
          (((eventKeys s.events).filter (fun k => decide (k > s.position) && decide (k ≤ n))).map
            (fun k => (bucketAt s.events k).countP gf)).sum)) := by
  have hts_sub : ∀ k ∈ seekTimestamps s.sortedEvents s.position n,
      (eventsGet s.events k).isSome := by
    intro k hk
    rw [eventsGet_isSome_iff_mem]
    unfold seekTimestamps at hk
    split at hk <;> exact hperm.mem_iff.mp (List.mem_of_mem_filter hk)
  obtain ⟨fkeys, fcnt, fconf, ftw, fsk, fow, flp, fse, fce⟩ :=
    foldl_fire_pres (decide (n < s.position)) (seekTimestamps s.sortedEvents s.position n) s hts_sub
  set sA := (seekTimestamps s.sortedEvents s.position n).foldl
      (fireBucket (decide (n < s.position))) s with hsA
  set sB : State := { sA with position := s.position } with hsB
  obtain ⟨tev, tpos, tsk, tow, tlp, tse, tce, tcn⟩ := applyTweens_pres sB n
  have hBev : sB.events = sA.events := rfl
  have hCow : (applyTweens sB n).oneWay = false := by
    rw [tow]
    show sA.oneWay = false
    rw [fow, how]
  have hbody : seekBody s n
      = { (applyTweens sB n) with position := n } := by
    simp only [seekBody]
    rw [← hsA, ← hsB]
    rw [if_neg]
    intro hcond
    rw [hCow] at hcond
    exact absurd hcond.1 (by simp)
  refine ⟨?_, ?_, ?_, ?_, ?_, ?_, ?_, ?_, ?_, ?_⟩
  · rw [hbody]
  · rw [hbody]
    show (applyTweens sB n).seeking = s.seeking
    rw [tsk]
    show sA.seeking = s.seeking
    exact fsk
  · rw [hbody]
    show (applyTweens sB n).loopAt = s.loopAt
    rw [tlp]
    exact flp
  · rw [hbody]
    exact hCow
  · rw [hbody]
    show (applyTweens sB n).sortedEvents = s.sortedEvents
    rw [tse]
    exact fse
  · rw [hbody]
    show (applyTweens sB n).currentEventOrder = s.currentEventOrder
    rw [tce]
    exact fce
  · rw [hbody]
    show eventKeys (applyTweens sB n).events = eventKeys s.events
    rw [tev, hBev]
    exact fkeys
  · intro k q
    rw [hbody]
    show (bucketAt (applyTweens sB n).events k).countP q = (bucketAt s.events k).countP q
    rw [tev, hBev]
    exact fcnt k q
  · intro p hp e he
    rw [hbody] at hp
    have hp2 : p ∈ sA.events := by
      rw [← hBev, ← tev]
      exact hp
    exact fconf p hp2 e he
  · intro a gf gb hgf hgb hnt
    rw [hbody]
    have h1 : ({ (applyTweens sB n) with position := n } : State).trace.count a
        = (applyTweens sB n).trace.count a := rfl
    rw [h1, tcn a hnt]
    have h2 : sB.trace.count a = sA.trace.count a := rfl
    rw [h2]
    by_cases hd : n < s.position
    · have hrev : decide (n < s.position) = true := decide_eq_true hd
      have hcount : ∀ funcs : List Entry,
          ((if decide (n < s.position) = true then funcs.reverse.flatMap callUndo
            else funcs.flatMap callFunc).count a = funcs.countP gb) := by
        intro funcs
        rw [if_pos hrev, hgb funcs.reverse, countP_reverse]
      have hsum := foldl_fire_count (decide (n < s.position)) a gb
        (by simpa using hcount) (seekTimestamps s.sortedEvents s.position n) s hts_sub
      rw [← hsA] at hsum
      rw [hsum, if_pos hd]
      congr 1
      have hts : seekTimestamps s.sortedEvents s.position n
          = s.sortedEvents.filter (fun k => decide (k < s.position) && decide (k ≥ n)) := by
        unfold seekTimestamps
        rw [if_pos hd]
      rw [hts]
      exact List.Perm.sum_eq (List.Perm.map _ (hperm.filter _))
    · have hrev : decide (n < s.position) = false := decide_eq_false hd
      have hcount : ∀ funcs : List Entry,
          ((if decide (n < s.position) = true then funcs.reverse.flatMap callUndo
            else funcs.flatMap callFunc).count a = funcs.countP gf) := by
        intro funcs
        rw [hrev]
        simpa using hgf funcs
      have hsum := foldl_fire_count (decide (n < s.position)) a gf
        (by simpa using hcount) (seekTimestamps s.sortedEvents s.position n) s hts_sub
      rw [← hsA] at hsum
      rw [hsum, if_neg hd]
      congr 1
      have hts : seekTimestamps s.sortedEvents s.position n
          = s.sortedEvents.filter (fun k => decide (k > s.position) && decide (k ≤ n)) := by
        unfold seekTimestamps
        rw [if_neg hd]
      rw [hts]
      exact List.Perm.sum_eq (List.Perm.map _ (hperm.filter _))

theorem seek_eq_afterLoop (fuel : ℕ) (st : State) (n : ℚ)
    (hseek : st.seeking = false) (hloop : st.loopAt = Option.none)
    (hne : ¬ (n = st.position)) (hdir : ¬ (st.oneWay = true ∧ n < st.position)) :
    seek fuel st n = seekAfterLoop st n := by
  cases fuel with
  | zero => simp [seek, hseek, hne, hdir, hloop]
  | succ f => simp [seek, seekWhile, hseek, hne, hdir, hloop]

theorem seek_spec (fuel : ℕ) (st : State) (n : ℚ) (h : SeekReady st) :
    ∃ st2, seek fuel st n = Except.ok st2 ∧ st2.position = n ∧ SeekReady st2 ∧
      eventKeys st2.events = eventKeys st.events ∧
      (∀ (k : ℚ) (q : Entry → Bool),
        (bucketAt st2.events k).countP q = (bucketAt st.events k).countP q) ∧
      (∀ p ∈ st2.events, ∀ e ∈ p.2, ∃ p0 ∈ st.events, p0.1 = p.1 ∧ e ∈ p0.2) ∧
      (∀ (a : Action) (gf gb : Entry → Bool),
        (∀ l : List Entry, (l.flatMap callFunc).count a = l.countP gf) →
        (∀ l : List Entry, (l.flatMap callUndo).count a = l.countP gb) →
        (∀ (j : ℕ) (v : ℚ), a ≠ Action.tweenApply j v) →
        st2.trace.count a = st.trace.count a +
          (if n < st.position then
            (((eventKeys st.events).filter
                (fun k => decide (k < st.position) && decide (k ≥ n))).map
              (fun k => (bucketAt st.events k).countP gb)).sum
          else
            (((eventKeys st.events).filter
                (fun k => decide (k > st.position) && decide (k ≤ n))).map
              (fun k => (bucketAt st.events k).countP gf)).sum)) := by
  obtain ⟨hseek, hloop, hdir, hnodup, hcache⟩ := h
  by_cases hn : n = st.position
  · refine ⟨st, by cases fuel <;> simp [seek, hseek, hn], hn.symm, ⟨hseek, hloop, hdir, hnodup, hcache⟩,
      rfl, fun k q => rfl, fun p hp e he => ⟨p, hp, rfl, he⟩, ?_⟩
    intro a gf gb hgf hgb hnt
    have hd : ¬ (n < st.position) := by rw [hn]; exact lt_irrefl _
    rw [if_neg hd]
    have hfil : (eventKeys st.events).filter
        (fun k => decide (k > st.position) && decide (k ≤ n)) = [] := by
      refine List.filter_eq_nil_iff.mpr (fun k _ => ?_)
      subst hn
      simp only [Bool.and_eq_true, decide_eq_true_eq, not_and]
      intro h1 h2
      exact absurd h1 (not_lt.mpr h2)
    rw [hfil]
    simp
  · have hdir2 : ¬ (st.oneWay = true ∧ n < st.position) := by
      rintro ⟨h1, _⟩
      rw [hdir] at h1
      exact absurd h1 (by simp)
    rw [seek_eq_afterLoop fuel st n hseek hloop hn hdir2]
    have hafter : seekAfterLoop st n
        = Except.ok { seekBody { sort st (decide (n < st.position)) with seeking := true } n
            with seeking := false } := by
      simp only [seekAfterLoop]
      rw [hloop]
      simp
    obtain ⟨sev, spos, str, ssk, sow, slp⟩ := sort_proj st (decide (n < st.position))
    have sperm := sort_sortedEvents_perm st (decide (n < st.position)) hcache
    set s1 : State := { sort st (decide (n < st.position)) with seeking := true } with hs1
    have h1ev : s1.events = st.events := sev
    have h1pos : s1.position = st.position := spos
    have h1tr : s1.trace = st.trace := str
    have h1ow : s1.oneWay = false := by
      show (sort st (decide (n < st.position))).oneWay = false
      rw [sow, hdir]
    have h1lp : s1.loopAt = Option.none := by
      show (sort st (decide (n < st.position))).loopAt = Option.none
      rw [slp, hloop]
    have h1se : s1.sortedEvents.Perm (eventKeys s1.events) := by
      show (sort st (decide (n < st.position))).sortedEvents.Perm (eventKeys s1.events)
      rw [h1ev]
      exact sperm
    obtain ⟨bpos, bsk, blp, bow, bse, bce, bkeys, bcnt, bconf, bcount⟩ := seekBody_spec s1 n h1ow h1se
    refine ⟨_, hafter, bpos, ?_, ?_, ?_, ?_, ?_⟩
    · refine ⟨rfl, ?_, ?_, ?_, ?_⟩
      · show (seekBody s1 n).loopAt = Option.none
        rw [blp, h1lp]
      · show (seekBody s1 n).oneWay = false
        exact bow
      · show (eventKeys (seekBody s1 n).events).Nodup
        rw [bkeys, h1ev]
        exact hnodup
      · refine Or.inr ?_
        show (seekBody s1 n).sortedEvents.Perm (eventKeys (seekBody s1 n).events)
        rw [bse, bkeys]
        exact h1se
    · show eventKeys (seekBody s1 n).events = eventKeys st.events
      rw [bkeys, h1ev]
    · intro k q
      show (bucketAt (seekBody s1 n).events k).countP q = (bucketAt st.events k).countP q
      rw [bcnt k q, h1ev]
    · intro p hp e he
      have hp2 : p ∈ (seekBody s1 n).events := hp
      rcases bconf p hp2 e he with ⟨p0, hp0, hp00, hep0⟩
      rw [h1ev] at hp0
      exact ⟨p0, hp0, hp00, hep0⟩
    · intro a gf gb hgf hgb hnt
      have hc := bcount a gf gb hgf hgb hnt
      show (seekBody s1 n).trace.count a = _
      rw [hc, h1tr, h1ev, h1pos]

/-! Collapsing bucket counts for a tracked entry. -/

theorem tracks_mem_keys {st : State} {t : ℚ} {i u : ℕ} (htr : Tracks st t i u) :
    t ∈ eventKeys st.events := by
  rcases htr with ⟨_, hc⟩
  by_contra hmem
  have hnone : eventsGet st.events t = Option.none := by
    cases hg : eventsGet st.events t with
    | none => rfl
    | some b => exact absurd ((eventsGet_isSome_iff_mem _ _).mp (by rw [hg]; rfl)) hmem
  have hb : bucketAt st.events t = [] := by unfold bucketAt; rw [hnone]; rfl
  rw [hb] at hc
  simp at hc

theorem tracks_countP_id {st : State} {t : ℚ} {i u : ℕ} (htr : Tracks st t i u) (k : ℚ) :
    (bucketAt st.events k).countP (fun e => decide (e.id = i)) = if k = t then 1 else 0 := by
  by_cases hk : k = t
  · subst hk
    rw [if_pos rfl, ← htr.2]
    refine List.countP_congr (fun e he => ?_)
    rcases mem_of_mem_bucketAt _ _ _ he with ⟨p, hp, hpk, hep⟩
    have hiff : (e.id = i) ↔ (e = Entry.mk i (Undo.fn u)) := by
      constructor
      · intro hid
        exact (htr.1 p hp e hep (Or.inl hid)).2
      · intro he2
        rw [he2]
    simp [hiff]
  · rw [if_neg hk]
    refine List.countP_eq_zero.mpr (fun e he => ?_)
    rcases mem_of_mem_bucketAt _ _ _ he with ⟨p, hp, hpk, hep⟩
    simp only [decide_eq_true_eq]
    intro hid
    exact hk (hpk ▸ (htr.1 p hp e hep (Or.inl hid)).1)

theorem tracks_countP_undoFn {st : State} {t : ℚ} {i u : ℕ} (htr : Tracks st t i u) (k : ℚ) :
    (bucketAt st.events k).countP (fun e => decide (e.undo = Undo.fn u))
      = if k = t then 1 else 0 := by
  by_cases hk : k = t
  · subst hk
    rw [if_pos rfl, ← htr.2]
    refine List.countP_congr (fun e he => ?_)
    rcases mem_of_mem_bucketAt _ _ _ he with ⟨p, hp, hpk, hep⟩
    have hiff : (e.undo = Undo.fn u) ↔ (e = Entry.mk i (Undo.fn u)) := by
      constructor
      · intro hid
        exact (htr.1 p hp e hep (Or.inr hid)).2
      · intro he2
        rw [he2]
    simp [hiff]
  · rw [if_neg hk]
    refine List.countP_eq_zero.mpr (fun e he => ?_)
    rcases mem_of_mem_bucketAt _ _ _ he with ⟨p, hp, hpk, hep⟩
    simp only [decide_eq_true_eq]
    intro hid
    exact hk (hpk ▸ (htr.1 p hp e hep (Or.inr hid)).1)

theorem tracks_countP_selfId {st : State} {t : ℚ} {i u : ℕ} (htr : Tracks st t i u) (k : ℚ) :
    (bucketAt st.events k).countP
      (fun e => decide (e.undo = Undo.self) && decide (e.id = i)) = 0 := by
  refine List.countP_eq_zero.mpr (fun e he => ?_)
  rcases mem_of_mem_bucketAt _ _ _ he with ⟨p, hp, hpk, hep⟩
  simp only [Bool.and_eq_true, decide_eq_true_eq, not_and]
  intro hself hid
  have := (htr.1 p hp e hep (Or.inl hid)).2
  rw [this] at hself
  exact absurd hself (by simp)

theorem sum_tracked (st : State) (t : ℚ) (g : Entry → Bool) (c : ℕ)
    (hnodup : (eventKeys st.events).Nodup)
    (hg : ∀ k : ℚ, (bucketAt st.events k).countP g = if k = t then c else 0)
    (pred : ℚ → Bool) :
    (((eventKeys st.events).filter pred).map (fun k => (bucketAt st.events k).countP g)).sum
      = if t ∈ (eventKeys st.events).filter pred then c else 0 := by
  have hmap : ((eventKeys st.events).filter pred).map (fun k => (bucketAt st.events k).countP g)
      = ((eventKeys st.events).filter pred).map (fun k => if k = t then c else 0) :=
    List.map_congr_left (fun k _ => hg k)
  rw [hmap]
  exact sum_map_indicator t c _ (hnodup.filter pred)

theorem seek_tracked_counts (fuel : ℕ) (st : State) (n t : ℚ) (i u : ℕ)
    (h : SeekReady st) (htr : Tracks st t i u) :
    ∃ st2, seek fuel st n = Except.ok st2 ∧ st2.position = n ∧ SeekReady st2 ∧
      Tracks st2 t i u ∧
      st2.trace.count (Action.fwd i)
        = st.trace.count (Action.fwd i) + (if st.position < t ∧ t ≤ n then 1 else 0) ∧
      st2.trace.count (Action.undoFn u)
        = st.trace.count (Action.undoFn u) + (if n ≤ t ∧ t < st.position then 1 else 0) := by
  obtain ⟨hsk, hlp, how, hnodup, hcache⟩ := h
  obtain ⟨st2, hok, hpos, hready2, hkeys, hcnt, hconf, hcount⟩ :=
    seek_spec fuel st n ⟨hsk, hlp, how, hnodup, hcache⟩
  refine ⟨st2, hok, hpos, hready2, ⟨?_, ?_⟩, ?_, ?_⟩
  · intro p hp e hep hor
    rcases hconf p hp e hep with ⟨p0, hp0, hp00, hep0⟩
    have h0 := htr.1 p0 hp0 e hep0 hor
    exact ⟨hp00 ▸ h0.1, h0.2⟩
  · rw [hcnt t _]
    exact htr.2
  · have hc := hcount (Action.fwd i) (fun e => decide (e.id = i))
      (fun e => decide (e.undo = Undo.self) && decide (e.id = i))
      (count_callFunc_fwd i) (count_callUndo_fwd i) (by intro j v; simp)
    rw [hc]
    congr 1
    by_cases hd : n < st.position
    · rw [if_pos hd]
      rw [sum_tracked st t _ 0 hnodup
        (fun k => by rw [tracks_countP_selfId htr k]; simp) _]
      have hw : ¬ (st.position < t ∧ t ≤ n) := by rintro ⟨h1, h2⟩; linarith
      simp [hw]
    · rw [if_neg hd]
      rw [sum_tracked st t _ 1 hnodup (tracks_countP_id htr) _]
      have hmem : t ∈ (eventKeys st.events).filter
          (fun k => decide (k > st.position) && decide (k ≤ n))
          ↔ (st.position < t ∧ t ≤ n) := by
        rw [List.mem_filter]
        simp [tracks_mem_keys htr]
      by_cases hw : st.position < t ∧ t ≤ n
      · rw [if_pos (hmem.mpr hw), if_pos hw]
      · rw [if_neg (fun hm => hw (hmem.mp hm)), if_neg hw]
  · have hc := hcount (Action.undoFn u) (fun _ => false)
      (fun e => decide (e.undo = Undo.fn u))
      (count_callFunc_undoFn u) (count_callUndo_undoFn u) (by intro j v; simp)
    rw [hc]
    congr 1
    by_cases hd : n < st.position
    · rw [if_pos hd]
      rw [sum_tracked st t _ 1 hnodup (tracks_countP_undoFn htr) _]
      have hmem : t ∈ (eventKeys st.events).filter
          (fun k => decide (k < st.position) && decide (k ≥ n))
          ↔ (n ≤ t ∧ t < st.position) := by
        rw [List.mem_filter]
        simp [tracks_mem_keys htr, and_comm]
      by_cases hw : n ≤ t ∧ t < st.position
      · rw [if_pos (hmem.mpr hw), if_pos hw]
      · rw [if_neg (fun hm => hw (hmem.mp hm)), if_neg hw]
    · rw [if_neg hd]
      rw [sum_tracked st t _ 0 hnodup (fun k => by simp [List.countP_false]) _]
      have hw : ¬ (n ≤ t ∧ t < st.position) := by
        rintro ⟨h1, h2⟩
        exact hd (lt_of_le_of_lt h1 h2)
      simp [hw]

theorem seekSeq_error (fuel : ℕ) (e : JsError) :
    ∀ ns : List ℚ,
      ns.foldl (fun acc n => acc.bind (fun s => seek fuel s n)) (Except.error e)
        = Except.error e := by
  intro ns
  induction ns with
  | nil => rfl
  | cons n ns ih => rw [List.foldl_cons]; exact ih

theorem seekSeq_cons (fuel : ℕ) (st : State) (n : ℚ) (ns : List ℚ) :
    seekSeq fuel st (n :: ns) = (seek fuel st n).bind (fun s => seekSeq fuel s ns) := by
  simp only [seekSeq, List.foldl_cons]
  cases hs : seek fuel st n with
  | error e =>
    have h1 : (Except.ok st).bind (fun s => seek fuel s n) = Except.error e := by
      simp [Except.bind, hs]
    rw [h1]
    rw [seekSeq_error fuel e ns]
    rfl
  | ok s1 =>
    have h1 : (Except.ok st).bind (fun s => seek fuel s n) = Except.ok s1 := by
      simp [Except.bind, hs]
    rw [h1]
    rfl

theorem seekSeq_tracked (fuel : ℕ) (t : ℚ) (i u : ℕ) :
    ∀ (ns : List ℚ) (st : State), SeekReady st → Tracks st t i u →
      t ≠ st.position → (∀ m ∈ ns, t ≠ m) →
      ∃ st2, seekSeq fuel st ns = Except.ok st2 ∧
        st2.position = ns.getLastD st.position ∧ SeekReady st2 ∧ Tracks st2 t i u ∧
        ((st2.trace.count (Action.fwd i) : ℤ) - st2.trace.count (Action.undoFn u))
          = ((st.trace.count (Action.fwd i) : ℤ) - st.trace.count (Action.undoFn u))
            + ((if t ≤ st2.position then 1 else 0) - (if t ≤ st.position then 1 else 0)) := by
  intro ns
  induction ns with
  | nil =>
    intro st h htr ht0 hts
    exact ⟨st, rfl, rfl, h, htr, by ring⟩
  | cons n ns ih =>
    intro st h htr ht0 hts
    have htn : t ≠ n := hts n (List.mem_cons_self n ns)
    obtain ⟨st1, hok1, hpos1, hready1, htr1, hful, hund⟩ :=
      seek_tracked_counts fuel st n t i u h htr
    have ht1 : t ≠ st1.position := by rw [hpos1]; exact htn
    obtain ⟨st2, hok2, hpos2, hready2, htr2, hdelta⟩ :=
      ih st1 hready1 htr1 ht1 (fun m hm => hts m (List.mem_cons_of_mem n hm))
    refine ⟨st2, ?_, ?_, hready2, htr2, ?_⟩
    · rw [seekSeq_cons, hok1]
      simpa [Except.bind] using hok2
    · rw [hpos2, hpos1, List.getLastD_cons]
    · have key : ((if st.position < t ∧ t ≤ n then (1:ℤ) else 0)
          - (if n ≤ t ∧ t < st.position then 1 else 0))
          = (if t ≤ n then (1:ℤ) else 0) - (if t ≤ st.position then 1 else 0) := by
        by_cases h1 : t ≤ n <;> by_cases h2 : t ≤ st.position
        · have ha : ¬ (st.position < t) := not_lt.mpr h2
          have hb : ¬ (n ≤ t) := not_le.mpr (lt_of_le_of_ne h1 htn)
          simp [ha, hb, h1, h2]
        · have ha : st.position < t := lt_of_not_le h2
          have hb : ¬ (t < st.position) := not_lt.mpr (le_of_lt ha)
          simp [ha, hb, h1, h2]
        · have ha : ¬ (t ≤ n) := h1
          have hb : n ≤ t := le_of_lt (lt_of_not_le h1)
          have hc : t < st.position := lt_of_le_of_ne h2 (fun hh => ht0 hh)
          simp [ha, hb, hc, h2]
        · have ha : ¬ (t < st.position) := fun hh => h2 (le_of_lt hh)
          simp [h1, h2, ha]
      have hful2 : (st1.trace.count (Action.fwd i) : ℤ)
          = st.trace.count (Action.fwd i) + (if st.position < t ∧ t ≤ n then (1:ℤ) else 0) := by
        rw [hful]
        push_cast
        by_cases hw : st.position < t ∧ t ≤ n <;> simp [hw]
      have hund2 : (st1.trace.count (Action.undoFn u) : ℤ)
          = st.trace.count (Action.undoFn u) + (if n ≤ t ∧ t < st.position then (1:ℤ) else 0) := by
        rw [hund]
        push_cast
        by_cases hw : n ≤ t ∧ t < st.position <;> simp [hw]
      rw [hdelta, hful2, hund2, hpos1]
      linarith [key]

/-! Properties of event registration needed for the registration-time claims. -/

theorem atEvent_events (st : State) (time : ℚ) (fid : ℕ) (undo : Undo) :
    (atEvent st time fid undo).events
      = eventsSet st.events time (bucketAt st.events time ++ [Entry.mk fid undo]) := by
  by_cases hp : st.position = time <;> simp [atEvent, hp]

theorem atEvent_pres (st : State) (time : ℚ) (fid : ℕ) (undo : Undo) :
    (atEvent st time fid undo).position = st.position ∧
    (atEvent st time fid undo).seeking = st.seeking ∧
    (atEvent st time fid undo).oneWay = st.oneWay ∧
    (atEvent st time fid undo).loopAt = st.loopAt ∧
    (atEvent st time fid undo).currentEventOrder = OrderFlag.none := by
  by_cases hp : st.position = time <;> simp [atEvent, hp]

theorem atEvent_trace_hit (st : State) (fid : ℕ) (undo : Undo) :
    (atEvent st st.position fid undo).trace = st.trace ++ [Action.fwd fid] := by
  simp [atEvent]

theorem bucketAt_append_single (es : List (ℚ × List Entry)) (tm : ℚ) (b : List Entry)
    (k : ℚ) (hk : k ≠ tm) : bucketAt (es ++ [(tm, b)]) k = bucketAt es k := by
  unfold bucketAt eventsGet
  have htm : ¬ (tm = k) := fun h => hk h.symm
  induction es with
  | nil => simp [List.find?, htm]
  | cons p es ih =>
    by_cases hp : p.1 = k <;> simp only [List.cons_append, List.find?_cons, hp] <;>
      simp [hp, htm, ih]

theorem bucketAt_atEvent_other (st : State) (time : ℚ) (fid : ℕ) (undo : Undo)
    (k : ℚ) (hk : k ≠ time) :
    bucketAt (atEvent st time fid undo).events k = bucketAt st.events k := by
  rw [atEvent_events]
  by_cases hfind : (st.events.find? (fun p => decide (p.1 = time))).isSome
  · exact bucketAt_eventsSet_other _ _ _ _ hk hfind
  · unfold eventsSet
    rw [if_neg hfind]
    exact bucketAt_append_single _ _ _ _ hk

theorem eventKeys_atEvent (st : State) (time : ℚ) (fid : ℕ) (undo : Undo) :
    eventKeys (atEvent st time fid undo).events = eventKeys st.events ∨
      (eventKeys (atEvent st time fid undo).events = eventKeys st.events ++ [time] ∧
        time ∉ eventKeys st.events) := by
  rw [atEvent_events]
  by_cases hfind : (st.events.find? (fun p => decide (p.1 = time))).isSome
  · exact Or.inl (eventKeys_eventsSet _ _ _ hfind)
  · refine Or.inr ⟨?_, ?_⟩
    · unfold eventsSet
      rw [if_neg hfind]
      unfold eventKeys
      simp
    · intro hmem
      exact hfind (eventsGet_isSome_find _ _ ((eventsGet_isSome_iff_mem _ _).mpr hmem))

theorem seekReady_atEvent (st : State) (time : ℚ) (fid : ℕ) (undo : Undo)
    (h : SeekReady st) : SeekReady (atEvent st time fid undo) := by
  obtain ⟨hsk, hlp, how, hnodup, _⟩ := h
  obtain ⟨hpos, hsk2, how2, hlp2, hce2⟩ := atEvent_pres st time fid undo
  refine ⟨hsk2.trans hsk, hlp2.trans hlp, how2.trans how, ?_, Or.inl hce2⟩
  rcases eventKeys_atEvent st time fid undo with hsame | ⟨happ, hnew⟩
  · rw [hsame]; exact hnodup
  · rw [happ, List.nodup_append]
    exact ⟨hnodup, List.nodup_singleton time, by simpa using hnew⟩

/-! The claims. -/

set_option maxHeartbeats 1000000 in
/-- Claim C1 (code bug, concrete run): the claim asserts forward replay visits
times ascending and backward replay descending, but `sortFnInc` (line 105)
returns 1 when `a < b`, so `Array.sort` produces a descending key list for a
forward seek (and `sortFnDec` an ascending one for a backward seek).  With
events at times 1 and 2, seeking 0 → 3 fires the handler at 2 before the one
at 1, and seeking 3 → 0 fires the undo at 1 before the one at 2 — both
inverted relative to the claim, the spec, and the source's own comment
"event callbacks are called in expected order" (line 99). -/
theorem seek_order_inverted :
    (((seek 1 (atEvent (atEvent init 1 1 (Undo.fn 11)) 2 2 (Undo.fn 21)) 3).bind
        (fun s => seek 1 s 0)).map State.trace)
      = Except.ok [Action.fwd 2, Action.fwd 1, Action.undoFn 11, Action.undoFn 21] := by
  rfl

set_option maxHeartbeats 1000000 in
/-- Claim C2 counterexample: with events at times 5 (undo id 11) and 10
(undo id 12), after seeking 0 → 10, the backward seek 10 → 5 fires the undo of
the event at time 5 — a time outside the claimed window (5, 10] — and does not
fire the undo of the event at time 10, which is inside that window.  So the
backward window is not (target, position]. -/
theorem seek_backward_window_cex :
    ((((seek 1 (atEvent (atEvent init 5 1 (Undo.fn 11)) 10 2 (Undo.fn 12)) 10).bind
        (fun s => seek 1 s 5)).map State.trace)
      = Except.ok [Action.fwd 2, Action.fwd 1, Action.undoFn 11]) ∧
    ¬ ((5 : ℚ) > 5 ∧ (5 : ℚ) ≤ 10) := by
  exact ⟨by rfl, by simp⟩

/-- Claim C2 (amended): seek fires exactly the events in a window that is
origin-exclusive and destination-inclusive in both directions — `(position, n]`
when seeking forward, and `[n, position)` (not `(n, position]`) when seeking
backward.  Stated here through an arbitrary tracked entry at time `t` with
forward handler `i` and undo callback `u`: the seek adds exactly one forward
fire of `i` when `position < t ≤ n`, exactly one undo fire of `u` when
`n ≤ t < position`, and nothing otherwise. -/
theorem seek_window (fuel : ℕ) (st : State) (n t : ℚ) (i u : ℕ)
    (h : SeekReady st) (htr : Tracks st t i u) :
    (seek fuel st n).map
        (fun s => (s.trace.count (Action.fwd i), s.trace.count (Action.undoFn u)))
      = Except.ok
          (st.trace.count (Action.fwd i) + (if st.position < t ∧ t ≤ n then 1 else 0),
           st.trace.count (Action.undoFn u) + (if n ≤ t ∧ t < st.position then 1 else 0)) := by
  obtain ⟨st2, hok, _, _, _, hf, hu⟩ := seek_tracked_counts fuel st n t i u h htr
  rw [hok]
  simp only [Except.map]
  rw [hf, hu]

/-- Witness for `seek_window`: one event at time 5 with undo callback 11, a
forward seek from 0 to 7; the event fires its forward handler exactly once. -/
theorem seek_window_witness :
    SeekReady (atEvent init 5 1 (Undo.fn 11)) ∧
    Tracks (atEvent init 5 1 (Undo.fn 11)) 5 1 11 ∧
    (seek 1 (atEvent init 5 1 (Undo.fn 11)) 7).map
        (fun s => (s.trace.count (Action.fwd 1), s.trace.count (Action.undoFn 11)))
      = Except.ok
          ((atEvent init 5 1 (Undo.fn 11)).trace.count (Action.fwd 1)
            + (if (atEvent init 5 1 (Undo.fn 11)).position < 5 ∧ (5 : ℚ) ≤ 7 then 1 else 0),
           (atEvent init 5 1 (Undo.fn 11)).trace.count (Action.undoFn 11)
            + (if (7 : ℚ) ≤ 5 ∧ (5 : ℚ) < (atEvent init 5 1 (Undo.fn 11)).position
               then 1 else 0)) :=
  ⟨by decide, by decide, seek_window 1 (atEvent init 5 1 (Undo.fn 11)) 7 5 1 11
    (by decide) (by decide)⟩

set_option maxHeartbeats 1000000 in
/-- Claim C3 counterexample: one event at time 10 registered with a real undo
callback; the seek sequence 0 → 10 → 0 has zero net displacement and returns
the position to 0, yet the forward handler fired once and the undo callback
never fired — the multiset of fired actions is not balanced, because the
backward window `[0, 10)` excludes the event at the turning point 10. -/
theorem seek_balance_cex :
    ((seek 1 (atEvent init 10 1 (Undo.fn 11)) 10).bind (fun s => seek 1 s 0)).map
        (fun s => (s.position, s.trace.count (Action.fwd 1), s.trace.count (Action.undoFn 11)))
      = Except.ok (0, 1, 0) := by
  rfl

/-- Claim C3 (amended): for every seek sequence with zero net displacement the
final position equals the starting position, and the forward/undo fire counts
of an event stay exactly balanced provided the event's time differs from the
starting position and from every seek target (at those boundary values the
off-by-one windows of the code break the balance, as the counterexample
shows). -/
theorem seek_balance (fuel : ℕ) (st : State) (t : ℚ) (i u : ℕ) (ns : List ℚ)
    (h : SeekReady st) (htr : Tracks st t i u)
    (hnet : ns.getLastD st.position = st.position)
    (ht0 : t ≠ st.position) (hts : ∀ m ∈ ns, t ≠ m) :
    (seekSeq fuel st ns).map
        (fun s => (s.position,
          (s.trace.count (Action.fwd i) : ℤ) - s.trace.count (Action.undoFn u)))
      = Except.ok (st.position,
          (st.trace.count (Action.fwd i) : ℤ) - st.trace.count (Action.undoFn u)) := by
  obtain ⟨st2, hok, hpos, _, _, hdelta⟩ := seekSeq_tracked fuel t i u ns st h htr ht0 hts
  rw [hok]
  simp only [Except.map]
  have hpos2 : st2.position = st.position := by rw [hpos, hnet]
  rw [hpos2] at hdelta
  rw [hpos2, hdelta]
  norm_num

/-- Witness for `seek_balance`: one event at time 5 with undo callback 11 and
the zero-net sequence of seeks 0 → 10 → 0. -/
theorem seek_balance_witness :
    SeekReady (atEvent init 5 1 (Undo.fn 11)) ∧
    Tracks (atEvent init 5 1 (Undo.fn 11)) 5 1 11 ∧
    ([(10 : ℚ), 0].getLastD (atEvent init 5 1 (Undo.fn 11)).position
      = (atEvent init 5 1 (Undo.fn 11)).position) ∧
    (seekSeq 1 (atEvent init 5 1 (Undo.fn 11)) [10, 0]).map
        (fun s => (s.position,
          (s.trace.count (Action.fwd 1) : ℤ) - s.trace.count (Action.undoFn 11)))
      = Except.ok ((atEvent init 5 1 (Undo.fn 11)).position,
          ((atEvent init 5 1 (Undo.fn 11)).trace.count (Action.fwd 1) : ℤ)
            - (atEvent init 5 1 (Undo.fn 11)).trace.count (Action.undoFn 11)) :=
  ⟨by decide, by decide, by decide,
    seek_balance 1 (atEvent init 5 1 (Undo.fn 11)) 5 1 11 [10, 0]
      (by decide) (by decide) (by decide) (by decide) (by decide)⟩

set_option maxHeartbeats 1000000 in
/-- Claim C4 (code bug, concrete run): `funcs.reverse()` (line 222) is JS
`Array.prototype.reverse`, which reverses the stored bucket in place.  Two
events at time 5 (forward ids 1, 2, undo ids 11, 12): the first forward seek
fires 1 then 2 and the first backward seek undoes 12 then 11, as the claim
says — but the second forward seek fires 2 before 1 (reverse registration
order), and the second backward seek undoes 11 then 12 (registration order,
not its reverse), because the bucket was left permanently reversed. -/
theorem bucket_mutated_in_place :
    (((((seek 1 (atEvent (atEvent init 5 1 (Undo.fn 11)) 5 2 (Undo.fn 12)) 10).bind
        (fun s => seek 1 s 0)).bind (fun s => seek 1 s 10)).bind
        (fun s => seek 1 s 0)).map State.trace)
      = Except.ok [Action.fwd 1, Action.fwd 2, Action.undoFn 12, Action.undoFn 11,
          Action.fwd 2, Action.fwd 1, Action.undoFn 11, Action.undoFn 12] := by
  have h1 : seek 1 (atEvent (atEvent init 5 1 (Undo.fn 11)) 5 2 (Undo.fn 12)) 10
      = Except.ok
        { position := 10,
          events := [(5, [Entry.mk 1 (Undo.fn 11), Entry.mk 2 (Undo.fn 12)])],
          tweens := [], loopAt := Option.none, loopRewind := false, oneWay := false,
          currentTweenOrder := OrderFlag.forward, currentEventOrder := OrderFlag.forward,
          sortedEvents := [5], purgeTimer := false, purgeTweens := false,
          purgeEvents := false, seeking := false,
          trace := [Action.fwd 1, Action.fwd 2] } := by rfl
  have h2 : seek 1
      { position := 10,
          events := [(5, [Entry.mk 1 (Undo.fn 11), Entry.mk 2 (Undo.fn 12)])],
          tweens := [], loopAt := Option.none, loopRewind := false, oneWay := false,
          currentTweenOrder := OrderFlag.forward, currentEventOrder := OrderFlag.forward,
          sortedEvents := [5], purgeTimer := false, purgeTweens := false,
          purgeEvents := false, seeking := false,
          trace := [Action.fwd 1, Action.fwd 2] } 0
      = Except.ok
        { position := 0,
          events := [(5, [Entry.mk 2 (Undo.fn 12), Entry.mk 1 (Undo.fn 11)])],
          tweens := [], loopAt := Option.none, loopRewind := false, oneWay := false,
          currentTweenOrder := OrderFlag.backward, currentEventOrder := OrderFlag.backward,
          sortedEvents := [5], purgeTimer := false, purgeTweens := false,
          purgeEvents := false, seeking := false,
          trace := [Action.fwd 1, Action.fwd 2, Action.undoFn 12, Action.undoFn 11] } := by
    rfl
  have h3 : seek 1
      { position := 0,
          events := [(5, [Entry.mk 2 (Undo.fn 12), Entry.mk 1 (Undo.fn 11)])],
          tweens := [], loopAt := Option.none, loopRewind := false, oneWay := false,
          currentTweenOrder := OrderFlag.backward, currentEventOrder := OrderFlag.backward,
          sortedEvents := [5], purgeTimer := false, purgeTweens := false,
          purgeEvents := false, seeking := false,
          trace := [Action.fwd 1, Action.fwd 2, Action.undoFn 12, Action.undoFn 11] } 10
      = Except.ok
        { position := 10,
          events := [(5, [Entry.mk 2 (Undo.fn 12), Entry.mk 1 (Undo.fn 11)])],
          tweens := [], loopAt := Option.none, loopRewind := false, oneWay := false,
          currentTweenOrder := OrderFlag.forward, currentEventOrder := OrderFlag.forward,
          sortedEvents := [5], purgeTimer := false, purgeTweens := false,
          purgeEvents := false, seeking := false,
          trace := [Action.fwd 1, Action.fwd 2, Action.undoFn 12, Action.undoFn 11,
            Action.fwd 2, Action.fwd 1] } := by
    rfl
  have h4 : seek 1
      { position := 10,
          events := [(5, [Entry.mk 2 (Undo.fn 12), Entry.mk 1 (Undo.fn 11)])],
          tweens := [], loopAt := Option.none, loopRewind := false, oneWay := false,
          currentTweenOrder := OrderFlag.forward, currentEventOrder := OrderFlag.forward,
          sortedEvents := [5], purgeTimer := false, purgeTweens := false,
          purgeEvents := false, seeking := false,
          trace := [Action.fwd 1, Action.fwd 2, Action.undoFn 12, Action.undoFn 11,
            Action.fwd 2, Action.fwd 1] } 0
      = Except.ok
        { position := 0,
          events := [(5, [Entry.mk 1 (Undo.fn 11), Entry.mk 2 (Undo.fn 12)])],
          tweens := [], loopAt := Option.none, loopRewind := false, oneWay := false,
          currentTweenOrder := OrderFlag.backward, currentEventOrder := OrderFlag.backward,
          sortedEvents := [5], purgeTimer := false, purgeTweens := false,
          purgeEvents := false, seeking := false,
          trace := [Action.fwd 1, Action.fwd 2, Action.undoFn 12, Action.undoFn 11,
            Action.fwd 2, Action.fwd 1, Action.undoFn 11, Action.undoFn 12] } := by
    rfl
  simp only [h1, Except.bind, h2, h3, h4, Except.map]

/-- Claim C5 (confirmed): registering an event at the current position fires
its forward handler synchronously exactly once (line 262), and a subsequent
seek leaving that position never fires it again: both seek windows exclude the
seek's own starting position, so for a fresh handler id the total forward-fire
count stays exactly 1. -/
theorem at_current_position_fires_once (fuel : ℕ) (st : State) (fid : ℕ) (undo : Undo)
    (n : ℚ) (h : SeekReady st)
    (hfresh : ∀ p ∈ st.events, ∀ e ∈ p.2, ¬ (e.id = fid)) :
    (atEvent st st.position fid undo).trace = st.trace ++ [Action.fwd fid] ∧
    (seek fuel (atEvent st st.position fid undo) n).map
        (fun s => s.trace.count (Action.fwd fid))
      = Except.ok (st.trace.count (Action.fwd fid) + 1) := by
  have htr1 := atEvent_trace_hit st fid undo
  refine ⟨htr1, ?_⟩
  have h1 : SeekReady (atEvent st st.position fid undo) :=
    seekReady_atEvent st st.position fid undo h
  have hpos1 : (atEvent st st.position fid undo).position = st.position :=
    (atEvent_pres st st.position fid undo).1
  have hcnt1 : (atEvent st st.position fid undo).trace.count (Action.fwd fid)
      = st.trace.count (Action.fwd fid) + 1 := by
    rw [htr1, List.count_append]
    simp
  obtain ⟨st2, hok, _, _, _, _, _, hcount⟩ :=
    seek_spec fuel (atEvent st st.position fid undo) n h1
  rw [hok]
  simp only [Except.map]
  have hzero : ∀ (g : Entry → Bool), (∀ e, g e = true → e.id = fid) →
      ∀ pl : List ℚ, (∀ k ∈ pl, ¬ (k = st.position)) →
        (pl.map (fun k =>
          (bucketAt (atEvent st st.position fid undo).events k).countP g)).sum = 0 := by
    intro g hg pl hpl
    refine List.sum_eq_zero (fun x hx => ?_)
    rcases List.mem_map.mp hx with ⟨k, hk, rfl⟩
    rw [bucketAt_atEvent_other st st.position fid undo k (hpl k hk)]
    refine List.countP_eq_zero.mpr (fun e he => ?_)
    rcases mem_of_mem_bucketAt _ _ _ he with ⟨p, hp, hpk, hep⟩
    intro hge
    exact hfresh p hp e hep (hg e hge)
  have hc := hcount (Action.fwd fid) (fun e => decide (e.id = fid))
    (fun e => decide (e.undo = Undo.self) && decide (e.id = fid))
    (count_callFunc_fwd fid) (count_callUndo_fwd fid) (by intro j v; simp)
  rw [hc, hcnt1]
  by_cases hd : n < (atEvent st st.position fid undo).position
  · rw [if_pos hd]
    have hpl : ∀ k ∈ (eventKeys (atEvent st st.position fid undo).events).filter
        (fun k => decide (k < (atEvent st st.position fid undo).position) && decide (k ≥ n)),
        ¬ (k = st.position) := by
      intro k hk hkp
      have hb := (List.mem_filter.mp hk).2
      simp only [Bool.and_eq_true, decide_eq_true_eq] at hb
      rw [hpos1, hkp] at hb
      exact absurd hb.1 (lt_irrefl _)
    rw [hzero (fun e => decide (e.undo = Undo.self) && decide (e.id = fid))
      (fun e hge => by simpa using (Bool.and_eq_true _ _ |>.mp hge).2) _ hpl]
  · rw [if_neg hd]
    have hpl : ∀ k ∈ (eventKeys (atEvent st st.position fid undo).events).filter
        (fun k => decide (k > (atEvent st st.position fid undo).position) && decide (k ≤ n)),
        ¬ (k = st.position) := by
      intro k hk hkp
      have hb := (List.mem_filter.mp hk).2
      simp only [Bool.and_eq_true, decide_eq_true_eq] at hb
      rw [hpos1, hkp] at hb
      exact absurd hb.1 (lt_irrefl _)
    rw [hzero (fun e => decide (e.id = fid))
      (fun e hge => by simpa using hge) _ hpl]

/-- Witness for `at_current_position_fires_once`: a fresh timeline at position
0, registration at 0 with handler id 7, then a seek to 10. -/
theorem at_current_position_fires_once_witness :
    SeekReady init ∧
    ((atEvent init init.position 7 Undo.null).trace = init.trace ++ [Action.fwd 7] ∧
    (seek 1 (atEvent init init.position 7 Undo.null) 10).map
        (fun s => s.trace.count (Action.fwd 7))
      = Except.ok (init.trace.count (Action.fwd 7) + 1)) :=
  ⟨by decide, at_current_position_fires_once 1 init 7 Undo.null 10 (by decide) (by decide)⟩

/-- Claim C6 (confirmed): while a seek is in progress the `seeking` flag is
set (every handler invoked by `seekBody` runs under that flag), and any seek
or jump call issued in that condition — in particular from inside an event or
undo handler — raises the reentrancy error (lines 194, 275) before touching
any state, so the rejected call leaves the position unchanged. -/
theorem seek_jump_reentrancy (fuel : ℕ) (st : State) (n m : ℚ) (h : st.seeking = true) :
    seek fuel st n = Except.error JsError.reentrancy ∧
    jump st m = Except.error JsError.reentrancy := by
  constructor
  · cases fuel <;> simp [seek, h]
  · simp [jump, h]

/-- Witness for `seek_jump_reentrancy`: the mid-seek state obtained by setting
the guard on a fresh timeline. -/
theorem seek_jump_reentrancy_witness :
    ({ init with seeking := true } : State).seeking = true ∧
    (seek 1 { init with seeking := true } 5 = Except.error JsError.reentrancy ∧
    jump { init with seeking := true } 7 = Except.error JsError.reentrancy) :=
  ⟨rfl, seek_jump_reentrancy 1 { init with seeking := true } 5 7 rfl⟩

/-- Claim C7 counterexample: a zero-duration tween at time 5 (from 0 to 1)
registered on a fresh timeline; seeking to exactly 5 applies the tween — the
target 5 is ≥ its startTime 5 — but the apply callback receives the fromValue
0 (progress 0, from the `to <= startTime` branch, line 173), not the full
toValue 1 the claim requires. -/
theorem zero_duration_tween_cex :
    ((seek 1 (tween init 5 0 3 (TVal.num 0) (TVal.num 1) Option.none) 5).map State.trace
      = Except.ok [Action.tweenApply 3 0]) ∧ (0 : ℚ) ≠ 1 := by
  exact ⟨by with_unfolding_all rfl, by norm_num⟩

/-- Claim C7 (amended): a zero-duration tween is valid and never evaluates the
0/0 quotient — the division branch (line 183) is unreachable for it.  With no
easing function its apply callback receives the full resolved toValue
(progress 1) whenever the target is strictly greater than startTime, and the
resolved fromValue (progress 0, not an undefined value) when the target equals
startTime. -/
theorem zero_duration_tween (toPos : ℚ) (tw : Tween) (h0 : tw.endTime = tw.startTime)
    (he : tw.easer = Option.none) :
    tweenValue toPos tw
      = if toPos ≤ tw.startTime then tw.fromValue.resolve else tw.toValue.resolve := by
  simp only [tweenValue, tweenProgress, he, h0]
  by_cases hle : toPos ≤ tw.startTime
  · rw [if_pos hle, if_pos hle]
    ring
  · have hgt : tw.startTime < toPos := lt_of_not_le hle
    rw [if_neg hle, if_pos hgt, if_neg hle]
    ring

/-- Witness for `zero_duration_tween`: a zero-duration tween at time 5 from 2
to 9, applied at 7 (past the start: full toValue) and at 5 (at the start:
fromValue). -/
theorem zero_duration_tween_witness :
    (tweenValue 7 (Tween.mk 5 5 3 (TVal.num 2) (TVal.num 9) Option.none) = 9) ∧
    (tweenValue 5 (Tween.mk 5 5 3 (TVal.num 2) (TVal.num 9) Option.none) = 2) := by
  constructor
  · rw [zero_duration_tween 7 (Tween.mk 5 5 3 (TVal.num 2) (TVal.num 9) Option.none) rfl rfl]
    decide
  · rw [zero_duration_tween 5 (Tween.mk 5 5 3 (TVal.num 2) (TVal.num 9) Option.none) rfl rfl]
    decide

/-- Claim C8 counterexample: the instance surface built from the `api` object
literal (lines 271-319) defines no `end` property at all. -/
theorem api_end_missing : ¬ ("end" ∈ apiKeys) := by
  decide

/-- Claim C8 (amended): the engine exposes no `end` property — the timeline's
extent is not queryable.  The properties actually installed are the twelve
keys of the `api` literal; `position` is the only read-only data getter, with
`oneWay` and `timescale` the read/write accessors. -/
theorem api_surface_no_end :
    "end" ∉ apiKeys ∧ "position" ∈ apiKeys ∧ "oneWay" ∈ apiKeys ∧
      "timescale" ∈ apiKeys ∧ apiKeys.length = 12 := by
  decide

set_option maxHeartbeats 1000000 in
/-- Claim C9 (code bug, concrete run): in one-way mode, after an event at
time 1 is passed by a seek to 2, the deferred purge callback fires — but its
events branch compares each key against the undeclared variable `n`
(line 138: `if (k < n) delete events[k]`), which in strict mode raises a
ReferenceError on the first key, so the spent bucket at time 1 is never
removed from the store. -/
theorem purge_reference_error :
    (seek 1 (atEvent (setOneWay init true) 1 1 Undo.null) 2).map
        (fun s => ((runPurge s).2, eventKeys (runPurge s).1.events))
      = Except.ok (some JsError.referenceError, [1]) := by
  rfl

/-- Claim C10 (confirmed): jump is not subject to the one-way restriction —
it checks only the reentrancy guard (line 275).  Whenever no seek is in
progress, `jump n` succeeds and just assigns the position, for any state: in
particular on a one-way timeline with a target behind the current position. -/
theorem jump_ignores_oneWay (st : State) (n : ℚ) (h : st.seeking = false) :
    jump st n = Except.ok { st with position := n } := by
  simp [jump, h]

/-- Witness for `jump_ignores_oneWay`: a one-way timeline at position 5
jumping backward to 2 without any error. -/
theorem jump_ignores_oneWay_witness :
    (setOneWay { init with position := 5 } true).oneWay = true ∧
    ((2 : ℚ) < (setOneWay { init with position := 5 } true).position) ∧
    jump (setOneWay { init with position := 5 } true) 2
      = Except.ok { setOneWay { init with position := 5 } true with position := 2 } :=
  ⟨rfl, by decide, jump_ignores_oneWay (setOneWay { init with position := 5 } true) 2 rfl⟩

end Timeline
